import Mathlib

/-!
Verification of the trade valuation and metrics engine of a trading-journal
application (single source file `app.py`).  Rows of the ledger are modelled as
records over `Option ℚ`: `none` plays the role of a pandas `NaN` (a value that
failed numeric coercion, or a field left empty), `some q` a finite numeric
value.  Arithmetic on such values propagates `none` the way IEEE arithmetic
propagates `NaN`.  Prices are exact rationals; the claims under study are about
branch structure and algebra, not floating-point rounding.
-/

/-- One normalized ledger row, after numeric coercion and timestamp parsing
(`app.py` lines 62-82).  Only the columns read by the valuation and metrics
code are carried; the remaining columns (`stop_loss`, `take_profit`,
`setup_quality`, emotions, notes, ...) are never read by the functions the
claims mention.  `timestamp` is the parsed date-time, encoded as an integer
instant. -/
structure Row where
  timestamp : Int
  pair : String
  direction : String
  entry_price : Option ℚ
  position_size : Option ℚ
  exit_price : Option ℚ
  pnl : Option ℚ
  deriving Repr, DecidableEq

/-- NaN-propagating subtraction on coerced numeric cells. -/
def nsub : Option ℚ → Option ℚ → Option ℚ
  | some a, some b => some (a - b)
  | _, _ => none

/-- NaN-propagating multiplication on coerced numeric cells. -/
def nmul : Option ℚ → Option ℚ → Option ℚ
  | some a, some b => some (a * b)
  | _, _ => none

/-- `calculate_pnl` (`app.py` lines 42-52).  The price map sends a pair to
`some p` when the dictionary built from `get_current_price` holds the float
`p` for it, and to `none` when it holds Python `None` (or the key is absent).
`if current_price:` is Python truthiness on that value: false for `None` and
for `0.0`, hence the `p = 0` test below falls through to `return row.pnl`
exactly as the source does. -/
def calculate_pnl (row : Row) (current_prices : String → Option ℚ) : Option ℚ :=
  if row.exit_price = none then
    match current_prices row.pair with
    | some p =>
      if p = 0 then row.pnl
      else if row.direction = "LONG" then
        nmul (nsub (some p) row.entry_price) row.position_size
      else
        nmul (nsub row.entry_price (some p)) row.position_size
    | none => row.pnl
  else row.pnl

/-- `total_trades = len(df)` (`app.py` line 147). -/
def total_trades (df : List Row) : Nat := df.length

/-- The boolean test `df['pnl'] > 0` on one cell: a pandas comparison with
`NaN` is `False`. -/
def pnlPos (x : Option ℚ) : Bool :=
  match x with
  | some v => 0 < v
  | none => false

/-- `winning_trades = len(df[df['pnl'] > 0])` (`app.py` line 148), counted
over the whole frame. -/
def winning_trades (df : List Row) : Nat :=
  (df.filter fun r => pnlPos r.pnl).length

/-- `win_rate = (winning_trades / total_trades * 100) if total_trades > 0
else 0` (`app.py` line 149). -/
def win_rate (df : List Row) : ℚ :=
  if 0 < total_trades df then
    (winning_trades df : ℚ) / (total_trades df : ℚ) * 100
  else 0

/-- `closed_trades = df[df['exit_price'].notna()]` (`app.py` line 152). -/
def closed_trades (df : List Row) : List Row :=
  df.filter fun r => r.exit_price ≠ none

/-- `open_trades = df[df['exit_price'].isna()]` (`app.py` line 153). -/
def open_trades (df : List Row) : List Row :=
  df.filter fun r => r.exit_price = none

/-- `total_pnl = closed_trades['pnl'].sum()` (`app.py` line 155); a pandas
sum skips `NaN` cells, which is summing `getD 0`. -/
def total_pnl (df : List Row) : ℚ :=
  ((closed_trades df).map fun r => r.pnl.getD 0).sum

/-- `open_pnl = open_trades['current_pnl'].sum()` (`app.py` line 156), where
`current_pnl` is the column produced by `df.apply(calculate_pnl, ...)`
(`app.py` line 82); the pandas sum skips `NaN` cells. -/
def open_pnl (df : List Row) (current_prices : String → Option ℚ) : ℚ :=
  ((open_trades df).map fun r => (calculate_pnl r current_prices).getD 0).sum

/-- C1: for an Open trade (exit_price is NaN) whose pair has a truthy price
`p` in the price map and whose entry price and position size are present,
`calculate_pnl` returns the mark-to-market value: `(p - entry) * size` for
direction LONG and `(entry - p) * size` otherwise (the source treats every
non-LONG direction as SHORT). -/
theorem calculate_pnl_open_mark_to_market
    (row : Row) (prices : String → Option ℚ) (p e s : ℚ)
    (hopen : row.exit_price = none)
    (hp : prices row.pair = some p) (hp0 : p ≠ 0)
    (he : row.entry_price = some e) (hs : row.position_size = some s) :
    calculate_pnl row prices =
      some (if row.direction = "LONG" then (p - e) * s else (e - p) * s) := by
  by_cases hd : row.direction = "LONG" <;>
    simp [calculate_pnl, hopen, hp, hp0, he, hs, nsub, nmul, hd]

/-- C1 witness: the spec scenarios.  `entry_price = 100`, `position_size = 10`,
current price `110` gives `100` for LONG and `-100` for SHORT; at current
price `= entry_price = 100` the result is `0` for both directions. -/
theorem calculate_pnl_open_mark_to_market_witness :
    calculate_pnl ⟨0, "BTCUSDT", "LONG", some 100, some 10, none, none⟩
        (fun _ => some 110) = some 100 ∧
    calculate_pnl ⟨0, "BTCUSDT", "SHORT", some 100, some 10, none, none⟩
        (fun _ => some 110) = some (-100) ∧
    calculate_pnl ⟨0, "BTCUSDT", "LONG", some 100, some 10, none, none⟩
        (fun _ => some 100) = some 0 ∧
    calculate_pnl ⟨0, "BTCUSDT", "SHORT", some 100, some 10, none, none⟩
        (fun _ => some 100) = some 0 := by
  refine ⟨?_, ?_, ?_, ?_⟩ <;>
    rw [calculate_pnl_open_mark_to_market _ _ _ _ _ rfl rfl (by norm_num) rfl rfl] <;>
    norm_num <;> decide

/-- C2: for a Closed trade (exit_price present), `calculate_pnl` returns the
persisted `pnl` cell unchanged, whatever the price map holds. -/
theorem calculate_pnl_closed_passthrough
    (row : Row) (prices : String → Option ℚ)
    (hclosed : row.exit_price ≠ none) :
    calculate_pnl row prices = row.pnl := by
  unfold calculate_pnl
  rw [if_neg hclosed]

/-- C2 witness: a concrete closed trade keeps its persisted pnl under two
different price maps. -/
theorem calculate_pnl_closed_passthrough_witness :
    calculate_pnl ⟨0, "BTCUSDT", "LONG", some 100, some 10, some 120, some 200⟩
        (fun _ => some 999) = some 200 ∧
    calculate_pnl ⟨0, "BTCUSDT", "LONG", some 100, some 10, some 120, some 200⟩
        (fun _ => none) = some 200 := by
  constructor <;>
    exact calculate_pnl_closed_passthrough _ _ (by simp)

/-- C10: for an Open trade whose pair resolves to a price of exactly `0`, the
truthiness check `if current_price:` is false, so `calculate_pnl` falls
through to `return row.pnl` — exactly as it does when the lookup failed
(`None`): a zero price is indistinguishable from a failed lookup, and for a
well-formed open row the stored `pnl` is absent. -/
theorem calculate_pnl_zero_price_like_failure
    (row : Row) (prices failed : String → Option ℚ)
    (hopen : row.exit_price = none)
    (h0 : prices row.pair = some 0)
    (hfail : failed row.pair = none) :
    calculate_pnl row prices = row.pnl ∧
    calculate_pnl row prices = calculate_pnl row failed := by
  constructor
  · simp [calculate_pnl, hopen, h0]
  · simp [calculate_pnl, hopen, h0, hfail]

/-- C10 witness: a concrete open row under a feed that returns `0` for its
pair, compared with a feed that fails on it. -/
theorem calculate_pnl_zero_price_like_failure_witness :
    calculate_pnl ⟨0, "BTCUSDT", "LONG", some 100, some 10, none, none⟩
        (fun _ => some 0) = none ∧
    calculate_pnl ⟨0, "BTCUSDT", "LONG", some 100, some 10, none, none⟩
        (fun _ => some 0) =
      calculate_pnl ⟨0, "BTCUSDT", "LONG", some 100, some 10, none, none⟩
        (fun _ => none) :=
  calculate_pnl_zero_price_like_failure _ _ _ rfl rfl rfl

/-- C3: an Open trade with no usable price for its pair (the map holds `None`
or a falsy `0`) values to the stored `pnl`, which is absent on a well-formed
open row; appending such a trade to any ledger leaves `open_pnl` unchanged,
because the pandas sum skips its `NaN` mark. -/
theorem open_trade_unresolvable_excluded
    (df : List Row) (prices : String → Option ℚ) (t : Row)
    (hopen : t.exit_price = none)
    (hpnl : t.pnl = none)
    (hnoprice : prices t.pair = none ∨ prices t.pair = some 0) :
    calculate_pnl t prices = none ∧
    open_pnl (df ++ [t]) prices = open_pnl df prices := by
  have h1 : calculate_pnl t prices = none := by
    rcases hnoprice with h | h <;> simp [calculate_pnl, hopen, hpnl, h]
  refine ⟨h1, ?_⟩
  unfold open_pnl open_trades
  rw [List.filter_append, List.map_append, List.sum_append]
  simp [hopen, h1]

/-- C3 witness: a ledger with one closed and one priced open trade; adding an
open trade on an unpriced symbol leaves `open_pnl` at its previous value. -/
theorem open_trade_unresolvable_excluded_witness :
    calculate_pnl ⟨2, "FOOUSDT", "LONG", some 5, some 1, none, none⟩
        (fun s => if s = "BTCUSDT" then some 110 else none) = none ∧
    open_pnl
        ([⟨0, "ETHUSDT", "LONG", some 50, some 10, some 60, some 100⟩,
          ⟨1, "BTCUSDT", "LONG", some 100, some 10, none, none⟩] ++
          [⟨2, "FOOUSDT", "LONG", some 5, some 1, none, none⟩])
        (fun s => if s = "BTCUSDT" then some 110 else none) =
      open_pnl
        [⟨0, "ETHUSDT", "LONG", some 50, some 10, some 60, some 100⟩,
         ⟨1, "BTCUSDT", "LONG", some 100, some 10, none, none⟩]
        (fun s => if s = "BTCUSDT" then some 110 else none) :=
  open_trade_unresolvable_excluded _ _ _ rfl rfl (Or.inl (by simp))

/-- C4: assuming the ledger invariant that Open rows carry no `pnl` (the
well-formed shape the spec fixes), `win_rate` is the count of Closed trades
with positive `pnl`, divided by the count of all rows, as a percentage —
the source counts `df['pnl'] > 0` over the whole frame, which coincides with
the closed-winner count because `NaN > 0` is false — and it is `0` when the
ledger is empty, with no division error. -/
theorem win_rate_closed_winners
    (df : List Row)
    (hwf : ∀ r ∈ df, r.exit_price = none → r.pnl = none) :
    win_rate df =
      (((closed_trades df).filter fun r => pnlPos r.pnl).length : ℚ)
        / (total_trades df : ℚ) * 100 ∧
    (total_trades df = 0 → win_rate df = 0) := by
  have hw : winning_trades df
      = ((closed_trades df).filter fun r => pnlPos r.pnl).length := by
    unfold winning_trades closed_trades
    rw [List.filter_filter]
    refine congrArg List.length (List.filter_congr ?_)
    intro r hr
    cases hp : pnlPos r.pnl with
    | false => simp [hp]
    | true =>
      have hpn : r.pnl ≠ none := by
        intro h; rw [h] at hp; simp [pnlPos] at hp
      have hex : r.exit_price ≠ none := fun h => hpn (hwf r hr h)
      simp [hp, hex]
  constructor
  · unfold win_rate
    by_cases h0 : 0 < total_trades df
    · rw [if_pos h0, hw]
    · rw [if_neg h0]
      have hz : total_trades df = 0 := by omega
      rw [hz]
      norm_num
  · intro h
    unfold win_rate
    rw [h]
    norm_num

/-- C4 witness: one open row (pnl absent), one closed winner, one closed
loser: `win_rate = 1/3 × 100`. -/
theorem win_rate_closed_winners_witness :
    win_rate
        [⟨0, "BTCUSDT", "LONG", some 100, some 10, none, none⟩,
         ⟨1, "ETHUSDT", "LONG", some 50, some 10, some 60, some 100⟩,
         ⟨2, "ETHUSDT", "SHORT", some 50, some 10, some 60, some (-100)⟩] =
      (((closed_trades
          [⟨0, "BTCUSDT", "LONG", some 100, some 10, none, none⟩,
           ⟨1, "ETHUSDT", "LONG", some 50, some 10, some 60, some 100⟩,
           ⟨2, "ETHUSDT", "SHORT", some 50, some 10, some 60, some (-100)⟩]).filter
          fun r => pnlPos r.pnl).length : ℚ)
        / (total_trades
            [⟨0, "BTCUSDT", "LONG", some 100, some 10, none, none⟩,
             ⟨1, "ETHUSDT", "LONG", some 50, some 10, some 60, some 100⟩,
             ⟨2, "ETHUSDT", "SHORT", some 50, some 10, some 60, some (-100)⟩] : ℚ)
        * 100 :=
  (win_rate_closed_winners _
    (by
      intro r hr hop
      simp only [List.mem_cons, List.not_mem_nil, or_false] at hr
      rcases hr with rfl | rfl | rfl <;> simp_all)).1

/-- `risk_reward_ratio` as computed on the new-trade path (`app.py` line 126):
`abs(take_profit - entry_price) / abs(entry_price - stop_loss) if stop_loss
else 0`.  Python evaluates the division only when `stop_loss` is truthy
(non-zero), and float division by a zero denominator raises
`ZeroDivisionError`; the expression is therefore modelled in `Except`, with
`Except.error` standing for the raised exception. -/
def risk_reward_ratio (entry_price stop_loss take_profit : ℚ) : Except String ℚ :=
  if stop_loss ≠ 0 then
    if |entry_price - stop_loss| = 0 then Except.error "ZeroDivisionError"
    else Except.ok (|take_profit - entry_price| / |entry_price - stop_loss|)
  else Except.ok 0

/-- C5 counterexample: with `stop_loss = entry_price = 100` (non-zero) and
`take_profit = 130`, `stop_loss` is truthy so the guard does not fire, the
denominator `abs(entry_price - stop_loss)` is zero, and the expression
raises `ZeroDivisionError` instead of producing a number — the claim that
the computation remains non-raising when `stop_loss` equals `entry_price`
is false on the code. -/
theorem risk_reward_ratio_raises_at_stop_eq_entry :
    risk_reward_ratio 100 100 130 = Except.error "ZeroDivisionError" := by
  norm_num [risk_reward_ratio]

/-- C5 amended: `risk_reward_ratio` is `abs(tp - entry) / abs(entry - stop)`
whenever `stop_loss` is non-zero and differs from `entry_price`; it is `0`
when `stop_loss` is zero (or absent — the only guarded case); but when
`stop_loss` equals `entry_price` and is non-zero the division raises
`ZeroDivisionError`: the zero-guard does not cover the degenerate
`stop_loss = entry_price` input. -/
theorem risk_reward_ratio_guard
    (entry_price stop_loss take_profit : ℚ) :
    (stop_loss = 0 →
      risk_reward_ratio entry_price stop_loss take_profit = Except.ok 0) ∧
    (stop_loss ≠ 0 → stop_loss ≠ entry_price →
      risk_reward_ratio entry_price stop_loss take_profit =
        Except.ok (|take_profit - entry_price| / |entry_price - stop_loss|)) ∧
    (stop_loss ≠ 0 → stop_loss = entry_price →
      risk_reward_ratio entry_price stop_loss take_profit =
        Except.error "ZeroDivisionError") := by
  refine ⟨fun h => by simp [risk_reward_ratio, h], fun h1 h2 => ?_, fun h1 h2 => ?_⟩
  · have hden : |entry_price - stop_loss| ≠ 0 := by
      rw [abs_ne_zero, sub_ne_zero]
      exact fun he => h2 he.symm
    simp [risk_reward_ratio, h1, hden]
  · have hden : |entry_price - stop_loss| = 0 := by rw [h2, sub_self, abs_zero]
    simp [risk_reward_ratio, h1, hden]

/-- C5 amended witness: the guarded case (`stop_loss = 0`), the spec
round-trip scenario (`entry 100, stop 90, tp 130` gives ratio `3`), and the
raising case (`stop_loss = entry_price = 100`). -/
theorem risk_reward_ratio_guard_witness :
    risk_reward_ratio 100 0 130 = Except.ok 0 ∧
    risk_reward_ratio 100 90 130 = Except.ok 3 ∧
    risk_reward_ratio 100 100 130 = Except.error "ZeroDivisionError" := by
  refine ⟨(risk_reward_ratio_guard 100 0 130).1 rfl, ?_,
    (risk_reward_ratio_guard 100 100 130).2.2 (by norm_num) rfl⟩
  rw [(risk_reward_ratio_guard 100 90 130).2.1 (by norm_num) (by norm_num)]
  norm_num

/-- One raw ledger row before the timestamp conversion (`app.py` lines
59-73).  Numeric columns have already passed `pd.to_numeric` with
`errors="coerce"`, which never raises (failures become NaN, i.e. `none`).
`tsParse` is the outcome `pd.to_datetime` would produce on the timestamp
string of this row alone: `some t` when it parses to the instant `t`,
`none` when it is malformed — in which case the column conversion raises. -/
structure RawRow where
  tsParse : Option Int
  pair : String
  direction : String
  entry_price : Option ℚ
  position_size : Option ℚ
  exit_price : Option ℚ
  pnl : Option ℚ
  deriving Repr, DecidableEq

/-- The load pass (`app.py` lines 59-86): the whole block runs under one
`try`; `pd.to_datetime` on the timestamp column raises at the first
malformed timestamp, and the handler shows the error and rebinds `df` to an
empty DataFrame — a single bad row empties the entire frame. -/
def loadRows (rows : List RawRow) : List Row :=
  if rows.all (fun r => r.tsParse.isSome) then
    rows.map (fun r =>
      ⟨r.tsParse.getD 0, r.pair, r.direction, r.entry_price,
        r.position_size, r.exit_price, r.pnl⟩)
  else []

/-- C8 counterexample: a ledger of two rows, the second with an unparseable
timestamp.  The claim says the pass is not aborted and both rows stay in
`total_trades` while other rows keep being aggregated; the code empties the
whole frame: `loadRows` returns `[]` and `total_trades` is `0`, not `2`. -/
theorem load_pass_aborts_on_bad_timestamp :
    loadRows
        [⟨some 0, "BTCUSDT", "LONG", some 100, some 10, some 120, some 200⟩,
         ⟨none, "ETHUSDT", "LONG", some 50, some 10, none, none⟩] = [] ∧
    total_trades (loadRows
        [⟨some 0, "BTCUSDT", "LONG", some 100, some 10, some 120, some 200⟩,
         ⟨none, "ETHUSDT", "LONG", some 50, some 10, none, none⟩]) = 0 :=
  ⟨rfl, rfl⟩

/-- C8 amended: a malformed timestamp aborts the whole load pass, not only
its own row: the column conversion raises, the handler replaces the frame
with an empty one (surfacing the error message), so every row — well-formed
ones included — is dropped from all aggregates and `total_trades` becomes
`0`; only when every timestamp parses does the pass keep all rows. -/
theorem load_pass_all_or_nothing (rows : List RawRow) :
    ((∃ r ∈ rows, r.tsParse = none) →
      loadRows rows = [] ∧ total_trades (loadRows rows) = 0) ∧
    ((∀ r ∈ rows, r.tsParse ≠ none) →
      (loadRows rows).length = rows.length) := by
  constructor
  · rintro ⟨r, hr, hnone⟩
    have hfail : rows.all (fun r => r.tsParse.isSome) ≠ true := by
      intro hall
      have := List.all_eq_true.mp hall r hr
      rw [hnone] at this
      simp at this
    unfold loadRows
    rw [if_neg hfail]
    exact ⟨rfl, rfl⟩
  · intro h
    have hall : rows.all (fun r => r.tsParse.isSome) = true := by
      refine List.all_eq_true.mpr fun r hr => ?_
      have := h r hr
      cases hts : r.tsParse with
      | none => exact absurd hts this
      | some t => simp
    unfold loadRows
    rw [if_pos hall, List.length_map]

/-- C8 amended witness: one bad row empties the frame; one good row is
kept. -/
theorem load_pass_all_or_nothing_witness :
    loadRows [⟨none, "ETHUSDT", "LONG", some 50, some 10, none, none⟩] = [] ∧
    (loadRows [⟨some 5, "BTCUSDT", "LONG", some 100, some 10, none, none⟩]).length = 1 :=
  ⟨((load_pass_all_or_nothing _).1
      ⟨⟨none, "ETHUSDT", "LONG", some 50, some 10, none, none⟩, by simp, rfl⟩).1,
   (load_pass_all_or_nothing _).2 (by simp)⟩

/-- One HTTP round trip of `get_current_price` (`app.py` lines 31-40), as
that function observes it.  `exn` is any raised exception — timeout,
connection error, JSON decode failure, missing key, a malformed
`last_price` — all caught by the bare `except`; `ok ret prices` is a parsed
body with `ret` the value of `ret_code` and `prices` the list of
`last_price` values under `result`. -/
inductive FeedResponse where
  | exn : FeedResponse
  | ok : Int → List ℚ → FeedResponse
  deriving Repr, DecidableEq

/-- `get_current_price` (`app.py` lines 31-40): when `ret_code == 0` it
returns the first `last_price` (`result[0]`; an empty `result` raises
`IndexError`, caught by the bare `except`, hence `head?`); when `ret_code`
is non-zero the function falls off its end and returns `None` implicitly;
any exception is swallowed into `None`. -/
def get_current_price (resp : FeedResponse) : Option ℚ :=
  match resp with
  | .exn => none
  | .ok ret prices => if ret = 0 then prices.head? else none

/-- A response on which the lookup cannot produce a price: a raised
exception (timeout, network error, malformed response) or a non-zero feed
status, or a success envelope with an empty result list. -/
def feedFailure (resp : FeedResponse) : Bool :=
  match resp with
  | .exn => true
  | .ok ret prices => ret != 0 || prices.isEmpty

/-- `unique_pairs = df['pair'].unique()` (`app.py` line 77): the distinct
values in order of first appearance. -/
def uniquePairs : List String → List String
  | [] => []
  | x :: xs => x :: uniquePairs (xs.filter (fun y => y ≠ x))
termination_by l => l.length
decreasing_by
  simp only [List.length_cons]
  have := List.length_filter_le (fun y => decide (y ≠ x)) xs
  omega

/-- The resolution loop (`app.py` lines 76-79): one entry
`current_prices[pair] = get_current_price(pair)` per pair of
`unique_pairs`, modelled as the association list the loop builds; `feed`
gives each symbol its single response for this pass. -/
def current_prices (feed : String → FeedResponse) (pairs : List String) :
    List (String × Option ℚ) :=
  (uniquePairs pairs).map (fun p => (p, get_current_price (feed p)))

theorem get_current_price_of_failure (resp : FeedResponse)
    (h : feedFailure resp = true) : get_current_price resp = none := by
  cases resp with
  | exn => rfl
  | ok ret prices =>
    simp only [feedFailure, Bool.or_eq_true, bne_iff_ne, ne_eq,
      List.isEmpty_iff] at h
    rcases h with h | h
    · simp [get_current_price, h]
    · subst h; simp [get_current_price]

theorem mem_uniquePairs (s : String) : ∀ (l : List String), s ∈ uniquePairs l ↔ s ∈ l
  | [] => by simp [uniquePairs]
  | x :: xs => by
    rw [uniquePairs]
    by_cases hx : s = x
    · subst hx; simp
    · simp only [List.mem_cons, hx, false_or]
      rw [mem_uniquePairs s (xs.filter (fun y => y ≠ x))]
      simp [hx]
termination_by l => l.length
decreasing_by
  simp only [List.length_cons]
  have := List.length_filter_le (fun y => decide (y ≠ x)) xs
  omega

theorem uniquePairs_nodup : ∀ (l : List String), (uniquePairs l).Nodup
  | [] => by simp [uniquePairs]
  | x :: xs => by
    rw [uniquePairs]
    refine List.nodup_cons.mpr ⟨?_, uniquePairs_nodup (xs.filter (fun y => y ≠ x))⟩
    rw [mem_uniquePairs]
    simp
termination_by l => l.length
decreasing_by
  simp only [List.length_cons]
  have := List.length_filter_le (fun y => decide (y ≠ x)) xs
  omega

theorem lookup_tabulate (f : String → Option ℚ) (l : List String) (s : String)
    (h : s ∈ l) :
    (l.map (fun p => (p, f p))).lookup s = some (f s) := by
  induction l with
  | nil => cases h
  | cons x xs ih =>
    by_cases hx : s = x
    · subst hx
      simp [List.lookup]
    · have hbeq : (s == x) = false := by simp [hx]
      have hmem : s ∈ xs := by
        rcases List.mem_cons.mp h with h1 | h1
        · exact absurd h1 hx
        · exact h1
      simp [List.lookup, hbeq, ih hmem]

/-- C9: price resolution deduplicates before querying — the list of queried
symbols is duplicate-free — and the per-symbol lookup is total (the bare
`except` turns every failure into `None`): a symbol whose response fails
(exception, non-zero status, empty result) resolves to unavailable in the
price dictionary, while every other symbol resolves exactly as it would
under any feed that agrees with this one outside the failing symbol. -/
theorem price_resolver_isolation
    (feed feed2 : String → FeedResponse) (pairs : List String) (s : String)
    (hfail : feedFailure (feed s) = true)
    (hagree : ∀ t, t ≠ s → feed2 t = feed t) :
    (uniquePairs pairs).Nodup ∧
    (s ∈ pairs → (current_prices feed pairs).lookup s = some none) ∧
    (∀ t, t ∈ pairs → t ≠ s →
      (current_prices feed pairs).lookup t =
        (current_prices feed2 pairs).lookup t) := by
  refine ⟨uniquePairs_nodup pairs, ?_, ?_⟩
  · intro hs
    have hmem : s ∈ uniquePairs pairs := (mem_uniquePairs s pairs).mpr hs
    rw [current_prices, lookup_tabulate _ _ _ hmem,
      get_current_price_of_failure _ hfail]
  · intro t ht hts
    have hmem : t ∈ uniquePairs pairs := (mem_uniquePairs t pairs).mpr ht
    rw [current_prices, current_prices, lookup_tabulate _ _ _ hmem,
      lookup_tabulate _ _ _ hmem, hagree t hts]

/-- C9 witness: the pass `["BTCUSDT", "ETHUSDT", "BTCUSDT"]` with a feed
that answers for BTCUSDT and raises for everything else, against a second
feed that differs only on the failing symbol ETHUSDT. -/
theorem price_resolver_isolation_witness :
    (uniquePairs ["BTCUSDT", "ETHUSDT", "BTCUSDT"]).Nodup ∧
    (current_prices
        (fun sym => if sym = "BTCUSDT" then .ok 0 [110] else .exn)
        ["BTCUSDT", "ETHUSDT", "BTCUSDT"]).lookup "ETHUSDT" = some none ∧
    (current_prices
        (fun sym => if sym = "BTCUSDT" then .ok 0 [110] else .exn)
        ["BTCUSDT", "ETHUSDT", "BTCUSDT"]).lookup "BTCUSDT" =
      (current_prices
        (fun sym => if sym = "ETHUSDT" then .ok 0 [42]
          else if sym = "BTCUSDT" then .ok 0 [110] else .exn)
        ["BTCUSDT", "ETHUSDT", "BTCUSDT"]).lookup "BTCUSDT" := by
  have h := price_resolver_isolation
    (fun sym => if sym = "BTCUSDT" then .ok 0 [110] else .exn)
    (fun sym => if sym = "ETHUSDT" then .ok 0 [42]
      else if sym = "BTCUSDT" then .ok 0 [110] else .exn)
    ["BTCUSDT", "ETHUSDT", "BTCUSDT"] "ETHUSDT"
    (by rfl)
    (by intro t ht; simp [ht])
  exact ⟨h.1, h.2.1 (by simp), h.2.2 "BTCUSDT" (by simp) (by simp)⟩

/-- The sort key of `closed_trades.sort_values('timestamp')`: ascending
timestamp order. -/
def tsLE (a b : Row) : Prop := a.timestamp ≤ b.timestamp

instance : DecidableRel tsLE := fun a b =>
  inferInstanceAs (Decidable (a.timestamp ≤ b.timestamp))

instance : IsTotal Row tsLE := ⟨fun a b => le_total a.timestamp b.timestamp⟩

instance : IsTrans Row tsLE := ⟨fun _ _ _ hab hbc => le_trans hab hbc⟩

/-- `closed_trades_sorted = closed_trades.sort_values('timestamp')`
(`app.py` line 174).  The embedding fixes the order of rows with equal
timestamps as a stable insertion sort; pandas applies its default sort
kind, so tie order is not pinned down by the source — every theorem below
depends only on the multiset of rows and on the timestamp ordering, never
on the order among ties. -/
def closed_trades_sorted (df : List Row) : List Row :=
  List.insertionSort tsLE (closed_trades df)

/-- The running total `closed_trades_sorted['pnl'].cumsum()` (`app.py` line
175) over one column: pandas `cumsum` leaves a `NaN` cell as `NaN` and
carries the running total past it unchanged. -/
def cumsumFrom (acc : ℚ) : List (Option ℚ) → List (Option ℚ)
  | [] => []
  | none :: xs => none :: cumsumFrom acc xs
  | some v :: xs => some (acc + v) :: cumsumFrom (acc + v) xs

/-- The `cumulative_pnl` column (`app.py` line 175). -/
def cumulative_pnl (df : List Row) : List (Option ℚ) :=
  cumsumFrom 0 ((closed_trades_sorted df).map (fun r => r.pnl))

theorem cumsumFrom_cons_head (acc : ℚ) (x : Option ℚ) (xs : List (Option ℚ)) :
    ∃ h t, cumsumFrom acc (x :: xs) = h :: t := by
  cases x <;> exact ⟨_, _, rfl⟩

theorem cumsumFrom_getLast (l : List (Option ℚ)) :
    (∀ x ∈ l, x ≠ none) → l ≠ [] → ∀ acc : ℚ,
    (cumsumFrom acc l).getLast? =
      some (some (acc + (l.map (fun x => x.getD 0)).sum)) := by
  induction l with
  | nil => intro _ hne; cases hne rfl
  | cons x xs ih =>
    intro hp _ acc
    cases x with
    | none => exact absurd rfl (hp none (List.mem_cons_self none xs))
    | some v =>
      cases xs with
      | nil => simp [cumsumFrom]
      | cons y ys =>
        obtain ⟨h0, t0, heq⟩ := cumsumFrom_cons_head (acc + v) y ys
        rw [show cumsumFrom acc (some v :: y :: ys)
              = some (acc + v) :: cumsumFrom (acc + v) (y :: ys) from rfl,
            heq, List.getLast?_cons_cons, ← heq,
            ih (fun z hz => hp z (List.mem_cons_of_mem _ hz))
              (List.cons_ne_nil y ys) (acc + v)]
        simp [add_assoc]

/-- C7: for a ledger with at least one Closed trade, all of whose Closed
rows carry a numeric `pnl` (the well-formed shape the spec fixes), the
equity curve runs in non-decreasing timestamp order and its final
cumulative value is `total_pnl`, the sum of `pnl` over Closed trades. -/
theorem equity_curve_sorted_and_sum
    (df : List Row)
    (hne : closed_trades df ≠ [])
    (hp : ∀ r ∈ closed_trades df, r.pnl ≠ none) :
    List.Sorted tsLE (closed_trades_sorted df) ∧
    (cumulative_pnl df).getLast? = some (some (total_pnl df)) := by
  have hperm : List.Perm (closed_trades_sorted df) (closed_trades df) :=
    List.perm_insertionSort tsLE _
  constructor
  · exact List.sorted_insertionSort tsLE (closed_trades df)
  · have hsne : closed_trades_sorted df ≠ [] := by
      intro h
      have hlen := hperm.length_eq
      rw [h] at hlen
      exact hne (List.length_eq_zero.mp hlen.symm)
    have hne2 : (closed_trades_sorted df).map (fun r => r.pnl) ≠ [] := by
      simpa using hsne
    have hp2 : ∀ x ∈ (closed_trades_sorted df).map (fun r => r.pnl), x ≠ none := by
      intro x hx
      obtain ⟨r, hr, rfl⟩ := List.mem_map.mp hx
      exact hp r (hperm.subset hr)
    rw [cumulative_pnl, cumsumFrom_getLast _ hp2 hne2 0, zero_add, List.map_map]
    have hsum : ((closed_trades_sorted df).map
          ((fun x : Option ℚ => x.getD 0) ∘ fun r : Row => r.pnl)).sum
        = ((closed_trades df).map (fun r => r.pnl.getD 0)).sum :=
      (hperm.map _).sum_eq
    rw [hsum, total_pnl]

/-- C7 witness: the spec scenario — two Closed trades, `pnl = +50` at `t1 =
1` and `pnl = -20` at `t2 = 2`, listed out of order: the sorted curve ends
at `total_pnl = 30`. -/
theorem equity_curve_sorted_and_sum_witness :
    List.Sorted tsLE (closed_trades_sorted
      [⟨2, "ETHUSDT", "LONG", some 50, some 10, some 45, some (-20)⟩,
       ⟨1, "BTCUSDT", "LONG", some 100, some 10, some 105, some 50⟩]) ∧
    (cumulative_pnl
      [⟨2, "ETHUSDT", "LONG", some 50, some 10, some 45, some (-20)⟩,
       ⟨1, "BTCUSDT", "LONG", some 100, some 10, some 105, some 50⟩]).getLast? =
      some (some (total_pnl
        [⟨2, "ETHUSDT", "LONG", some 50, some 10, some 45, some (-20)⟩,
         ⟨1, "BTCUSDT", "LONG", some 100, some 10, some 105, some 50⟩])) :=
  equity_curve_sorted_and_sum _
    (by simp [closed_trades])
    (by
      intro r hr
      have hmem : r ∈
          [⟨2, "ETHUSDT", "LONG", some 50, some 10, some 45, some (-20)⟩,
           (⟨1, "BTCUSDT", "LONG", some 100, some 10, some 105, some 50⟩ : Row)] :=
        List.mem_of_mem_filter hr
      simp only [List.mem_cons, List.not_mem_nil, or_false] at hmem
      rcases hmem with rfl | rfl <;> simp)
